import Mathlib

set_option maxHeartbeats 1000000

/-!
Verification of the exelixi distributed-framework core.

This file is a shallow embedding of the worker shard service
(`src/service.py`, class `Worker`, `Framework`) and of the executor
service (`src/executor.py`, class `Executor`), together with theorems
checking the natural-language design document against that code.

Conventions of the embedding:
* Python `None` becomes `Option.none`; JSON `null` fields of a request
  payload become `none` as well.
* The Python field `prefix` is called `pfx` here (`prefix` is a Lean
  keyword); every other field keeps its source name.
* WSGI responses are modelled by a `Status` plus the list of body lines
  the handler `put`s; `auth_request` itself writes the 403 body in the
  source, so in the embedding the call sites that receive `false` from
  `auth_request` produce the 403 response.
* The gevent concurrency (greenlets, `JoinableQueue`, `Event`) is
  modelled further below as a small-step transition system.
-/

/-- A decoded JSON request payload for the Worker REST endpoints.
`pfx`/`shard_id` are the credential fields, `uow_name` is used by
`/shard/config`, `ring` by `/ring/init`; handlers ignore the fields
they do not read, as the Python dict lookups do. -/
structure Payload where
  pfx : Option String
  shard_id : Option String
  uow_name : String
  ring : List (String × String)
deriving Repr, DecidableEq

/-- The mutable fields of `Worker.__init__` (src/service.py:44-61):
`is_config`, `prefix` (`pfx`), `shard_id`, `ring`, `_task_event`,
`_task_queue`, `_uow`, plus a `stopped` flag standing for
`self.server.stop()` having been called.  `_task_event` and
`_task_queue` hold indices into the event/queue stores of the
transition system defined later (`none` = Python `None`); `_uow` holds
an opaque identifier of the instantiated UnitOfWork. -/
structure WorkerState where
  is_config : Bool
  pfx : Option String
  shard_id : Option String
  ring : Option (List (String × String))
  task_event : Option Nat
  task_queue : Option Nat
  uow : Option String
  stopped : Bool
deriving Repr, DecidableEq

/-- The state `Worker.__init__` leaves behind: unconfigured, every
sharding/concurrency field `None`. -/
def initWorker : WorkerState :=
  { is_config := false, pfx := none, shard_id := none, ring := none,
    task_event := none, task_queue := none, uow := none, stopped := false }

/-- `Worker.auth_request` (src/service.py:84-95): the credential test
`(self.prefix == payload["prefix"]) and (self.shard_id == payload["shard_id"])`.
On `false` the source writes the 403 body itself; call sites of the
embedding produce that response. -/
def auth_request (w : WorkerState) (pl : Payload) : Bool :=
  w.pfx == pl.pfx && w.shard_id == pl.shard_id

/-- Outcome of a `/shard/config` attempt.  `alreadyConfigured` is the
403 branch; `unknownStrategy` stands for `instantiate_class` raising
(the exception propagates out of the handler greenlet); `ok` is the
200 `Bokay` branch. -/
inductive ConfigOutcome
  | alreadyConfigured
  | unknownStrategy
  | ok
deriving Repr, DecidableEq

/-- `Worker.shard_config` (src/service.py:98-125).  The factory chain
`instantiate_class(uow_name)` / `ff.instantiate_uow(uow_name, self.prefix)`
lives in `util.py`, which is outside `src/`; it is abstracted by the
`factory` argument, modelled from the spec as a pure registry lookup
that fails on an unknown strategy identifier (`none`).  Faithful to the
source, `is_config`, `prefix` and `shard_id` are assigned *before* the
factory is consulted, so a factory failure leaves those assignments in
place and only `_uow` untouched. -/
def shard_config (factory : String → Option String) (w : WorkerState) (pl : Payload) :
    WorkerState × ConfigOutcome :=
  if w.is_config then
    (w, .alreadyConfigured)
  else
    let w1 := { w with is_config := true, pfx := pl.pfx, shard_id := pl.shard_id }
    match factory pl.uow_name with
    | none => (w1, .unknownStrategy)
    | some u => ({ w1 with uow := some u }, .ok)

/-- Status line of a WSGI response in the embedding. -/
inductive Status
  | ok200
  | forbidden403
  | notFound404
deriving Repr, DecidableEq

/-- A WSGI response: status line plus the body lines `put` by the handler. -/
structure Response where
  status : Status
  body : List String
deriving Repr, DecidableEq

/-- The 403 response `auth_request` writes on a credential mismatch. -/
def forbiddenResponse : Response :=
  ⟨.forbidden403, ["Forbidden, incorrect credentials for this shard\r\n"]⟩

/-- `Worker.ring_init` (src/service.py:198-209): after `auth_request`
succeeds, store the ring from the payload and acknowledge. -/
def ring_init (w : WorkerState) (pl : Payload) : WorkerState × Response :=
  if auth_request w pl then
    ({ w with ring := some pl.ring }, ⟨.ok200, ["Bokay\r\n"]⟩)
  else
    (w, forbiddenResponse)

/-- `Worker.shard_stop` (src/service.py:69-78): stop the server only on
an exact `(prefix, shard_id)` match; on mismatch only log (deliberately
no error response). -/
def shard_stop (w : WorkerState) (pl : Payload) : WorkerState :=
  if w.pfx == pl.pfx && w.shard_id == pl.shard_id then
    { w with stopped := true }
  else
    w

/-- The mutable fields of `Executor.__init__` (src/executor.py:35-42)
relevant to configuration. -/
structure ExecutorState where
  is_config : Bool
  pfx : Option String
  shard_id : Option String
deriving Repr, DecidableEq

/-- `Executor.shard_config` (src/executor.py:64-84): reject (404
`Denied`) when already configured, otherwise store the credential.
The executor instantiates no UnitOfWork. -/
def executor_shard_config (e : ExecutorState) (pl : Payload) :
    ExecutorState × Bool :=
  if e.is_config then
    (e, false)
  else
    ({ e with is_config := true, pfx := pl.pfx, shard_id := pl.shard_id }, true)

/-- A payload whose strategy identifier no factory entry resolves, used
to exercise the `UnknownStrategy` path. -/
def badUowPayload : Payload :=
  { pfx := some "/tmp/exelixi/run0", shard_id := some "shard/0",
    uow_name := "no.such.module", ring := [] }

/-- The empty factory: no strategy identifier resolves. -/
def emptyFactory : String → Option String := fun _ => none

/-- C1 counterexample: on an unconfigured Worker, a configuration
attempt whose strategy identifier the factory cannot resolve fails with
`UnknownStrategy` but *does* leave the shard half-configured: the
`is_config` flag flips from `false` to `true` and the stored credential
takes the payload's values, because `shard_config` assigns them before
consulting the factory (src/service.py:110-118).  This refutes the
claim that the Worker's `is_config` flag and stored credential are the
same after the failed attempt as before it. -/
theorem shard_config_unknown_uow_flag_changes :
    (shard_config emptyFactory initWorker badUowPayload).2 = .unknownStrategy ∧
    initWorker.is_config = false ∧
    (shard_config emptyFactory initWorker badUowPayload).1.is_config = true ∧
    initWorker.pfx = none ∧
    (shard_config emptyFactory initWorker badUowPayload).1.pfx = some "/tmp/exelixi/run0" := by
  decide

/-- C1 amended: for every Worker in the Unconfigured state and every
configuration payload whose strategy identifier the factory cannot
resolve, the configuration attempt fails (`UnknownStrategy`) and the
`UnitOfWork` instance is unchanged, but the Worker is left
half-configured: `is_config` is set to `true` and the stored credential
is overwritten with the payload's `(prefix, shard_id)`; all other
fields are unchanged. -/
theorem shard_config_unknown_uow_half_configured
    (factory : String → Option String) (w : WorkerState) (pl : Payload)
    (hw : w.is_config = false) (hf : factory pl.uow_name = none) :
    (shard_config factory w pl).2 = .unknownStrategy ∧
    (shard_config factory w pl).1 =
      { w with is_config := true, pfx := pl.pfx, shard_id := pl.shard_id } ∧
    (shard_config factory w pl).1.uow = w.uow := by
  simp [shard_config, hw, hf]

/-- Witness for the C1 amended theorem at a concrete input. -/
theorem shard_config_unknown_uow_half_configured_witness :
    initWorker.is_config = false ∧ emptyFactory badUowPayload.uow_name = none ∧
    ((shard_config emptyFactory initWorker badUowPayload).2 = .unknownStrategy ∧
     (shard_config emptyFactory initWorker badUowPayload).1 =
       { initWorker with is_config := true, pfx := badUowPayload.pfx,
                         shard_id := badUowPayload.shard_id } ∧
     (shard_config emptyFactory initWorker badUowPayload).1.uow = initWorker.uow) :=
  ⟨by decide, by decide,
   shard_config_unknown_uow_half_configured emptyFactory initWorker badUowPayload
     (by decide) (by decide)⟩

/-- C3: a Worker already in the Configured state rejects every second
configuration payload and keeps exactly the credential and UnitOfWork
set by the first successful configuration (src/service.py:102-108);
the Executor behaves the same way (src/executor.py:70-75): for any two
configuration payloads A then B, the second attempt is rejected and
mutates nothing. -/
theorem shard_config_second_attempt_rejected
    (factory : String → Option String) (w : WorkerState) (eA eB : Payload)
    (u : String)
    (hw : w.is_config = false) (hf : factory eA.uow_name = some u)
    (e : ExecutorState) (he : e.is_config = false) :
    ((shard_config factory w eA).2 = .ok ∧
     (shard_config factory w eA).1.pfx = eA.pfx ∧
     (shard_config factory w eA).1.shard_id = eA.shard_id ∧
     (shard_config factory w eA).1.uow = some u ∧
     (shard_config factory (shard_config factory w eA).1 eB).2 = .alreadyConfigured ∧
     (shard_config factory (shard_config factory w eA).1 eB).1 =
       (shard_config factory w eA).1) ∧
    ((executor_shard_config e eA).2 = true ∧
     (executor_shard_config e eA).1.pfx = eA.pfx ∧
     (executor_shard_config e eA).1.shard_id = eA.shard_id ∧
     (executor_shard_config (executor_shard_config e eA).1 eB).2 = false ∧
     (executor_shard_config (executor_shard_config e eA).1 eB).1 =
       (executor_shard_config e eA).1) := by
  constructor
  · simp [shard_config, hw, hf]
  · simp [executor_shard_config, he]

/-- A payload whose strategy identifier the one-entry factory resolves. -/
def goodUowPayload : Payload :=
  { pfx := some "/tmp/exelixi/run0", shard_id := some "shard/0",
    uow_name := "uow.UnitOfWorkFactory", ring := [] }

/-- A factory resolving exactly the identifier of `goodUowPayload`. -/
def oneEntryFactory : String → Option String := fun n =>
  if n = "uow.UnitOfWorkFactory" then some "uow-instance-0" else none

/-- Witness for C3 at a concrete input. -/
theorem shard_config_second_attempt_rejected_witness :
    initWorker.is_config = false ∧
    oneEntryFactory goodUowPayload.uow_name = some "uow-instance-0" ∧
    (shard_config oneEntryFactory
      (shard_config oneEntryFactory initWorker goodUowPayload).1 badUowPayload).2 =
      .alreadyConfigured :=
  ⟨by decide, by decide,
   ((shard_config_second_attempt_rejected oneEntryFactory initWorker goodUowPayload
      badUowPayload "uow-instance-0" (by decide) (by decide)
      ⟨false, none, none⟩ (by decide)).1).2.2.2.2.1⟩

/-!
The concurrency model.

`Worker` concurrency is gevent: cooperative greenlets multiplexed on one
thread; a greenlet only yields at a blocking primitive.  The transition
system below has one step per scheduling decision; an adversarial trace
of `Act`s chooses the interleaving.  It models:

* the store of `JoinableQueue`s ever created by `prep_task_queue`
  (`queues`, indexed `0,1,...`; `nq` is how many exist) — a queue has
  its `pending` payloads (FIFO), its `unfinished` task counter
  (incremented by `put`, decremented by `task_done`, `join` waits for
  zero) and the `history` of every payload ever put;
* the store of `Event`s ever created by `wrap_task_event` (`events`,
  `true` = set);
* one consumer greenlet per `prep_task_queue` call (`consumers`),
  running `Worker._consume_task_queue` (src/service.py:142-150) —
  faithful to the source, the consumer re-reads `self._task_queue`
  both when it returns to `get` and when it calls `task_done`;
* one representative `/queue/wait` request greenlet (`waiter`,
  src/service.py:164-175) and one representative `/queue/join` request
  greenlet (`joiner`, src/service.py:178-192).
-/

/-- A gevent `JoinableQueue`. -/
structure Queue where
  pending : List Nat
  unfinished : Nat
  history : List Nat
deriving Repr, DecidableEq

/-- Program counter of a consumer greenlet running
`Worker._consume_task_queue`.  `blockedGet q` means blocked inside
`get()` on queue `q` (the queue object was read from `self._task_queue`
when `get` was entered); `performing p` means inside
`self._uow.perform_task(p)`; `inFinally raised` means about to run the
`finally` clause, where `raised` records whether `perform_task` raised;
`dead` means the greenlet terminated (an exception propagated out of
the `while` loop). -/
inductive CPC
  | loopTop
  | blockedGet (q : Nat)
  | performing (p : Nat)
  | inFinally (raised : Bool)
  | dead
deriving Repr, DecidableEq

/-- A consumer greenlet: its program counter and the log of
`(queue, payload)` pairs it has dequeued, in order.  `perform_task` is
invoked on exactly the logged payloads, in log order. -/
structure Consumer where
  pc : CPC
  log : List (Nat × Nat)
deriving Repr, DecidableEq

/-- Program counter of the representative `/queue/wait` request
greenlet.  `wacked captured` means the 200 `Bokay` acknowledgement was
written; `captured` records the `Event` the greenlet waited on
(`none` when `self._task_event` was `None` and it acknowledged
immediately). -/
inductive WaitPC
  | widle
  | wblocked (ev : Nat)
  | wacked (captured : Option Nat)
  | wrejected
deriving Repr, DecidableEq

/-- Program counter of the representative `/queue/join` request
greenlet.  `jblocked q` means the greenlet wrote `"join queue..."` and
is blocked in `self._task_queue.join()` on queue `q`; `jdone` means it
wrote the final `"done"`; `jcrashed` means `self._task_queue` was
`None` and the attribute access raised. -/
inductive JoinPC
  | jidle
  | jblocked (q : Nat)
  | jdone
  | jrejected
  | jcrashed
deriving Repr, DecidableEq

/-- Whole-system state of one Worker process. -/
structure Sys where
  w : WorkerState
  nevents : Nat
  events : Nat → Bool
  nq : Nat
  queues : Nat → Queue
  consumers : Nat → Consumer
  waiter : WaitPC
  joiner : JoinPC

/-- Point update of a function store. -/
def upd {α : Type} (f : Nat → α) (i : Nat) (v : α) : Nat → α :=
  fun j => if j = i then v else f j

theorem upd_same {α : Type} (f : Nat → α) (i : Nat) (v : α) : upd f i v i = v := by
  simp [upd]

theorem upd_other {α : Type} (f : Nat → α) (i : Nat) (v : α) (j : Nat) (h : j ≠ i) :
    upd f i v j = f j := by
  simp [upd, h]

/-- The initial system: a fresh `Worker.__init__`, no queues, no
events, consumers not yet spawned, no wait/join request yet. -/
def initSys : Sys :=
  { w := initWorker, nevents := 0, events := fun _ => false,
    nq := 0, queues := fun _ => ⟨[], 0, []⟩,
    consumers := fun _ => ⟨.dead, []⟩,
    waiter := .widle, joiner := .jidle }

/-- `Worker.prep_task_queue` (src/service.py:153-156): set
`self._task_queue` to a fresh `JoinableQueue` and spawn a consumer
greenlet on `_consume_task_queue`. -/
def prep_task_queue (s : Sys) : Sys :=
  { s with
    queues := upd s.queues s.nq ⟨[], 0, []⟩,
    consumers := upd s.consumers s.nq ⟨.loopTop, []⟩,
    nq := s.nq + 1,
    w := { s.w with task_queue := some s.nq } }

/-- `Worker.put_task_queue` (src/service.py:159-161):
`self._task_queue.put_nowait(payload)` — append to the current queue's
`pending`, bump its `unfinished` counter, record it in `history`.
With `self._task_queue = None` the attribute access would raise; the
model leaves the state unchanged in that case. -/
def put_task_queue (s : Sys) (p : Nat) : Sys :=
  match s.w.task_queue with
  | none => s
  | some q =>
    { s with queues := upd s.queues q ⟨(s.queues q).pending ++ [p],
        (s.queues q).unfinished + 1, (s.queues q).history ++ [p]⟩ }

/-- One scheduling step of consumer greenlet `j`
(`Worker._consume_task_queue`, src/service.py:142-150).  `raised`
tells whether `self._uow.perform_task` raises when it is the step being
taken; the `finally` clause runs `task_done` either way, and a raise
then propagates out of the `while` loop, terminating the greenlet.
`task_done` on a queue whose `unfinished` counter is zero raises
`ValueError`, also terminating the greenlet.  Both `get` entry and
`task_done` re-read `self._task_queue`, as the source does. -/
def consume_step (s : Sys) (j : Nat) (raised : Bool) : Sys :=
  if j < s.nq then
    match (s.consumers j).pc with
    | .loopTop =>
      match s.w.task_queue with
      | none => { s with consumers := upd s.consumers j ⟨.dead, (s.consumers j).log⟩ }
      | some q =>
        match (s.queues q).pending with
        | [] => { s with consumers := upd s.consumers j ⟨.blockedGet q, (s.consumers j).log⟩ }
        | p :: rest =>
          { s with
            queues := upd s.queues q ⟨rest, (s.queues q).unfinished, (s.queues q).history⟩,
            consumers := upd s.consumers j ⟨.performing p, (s.consumers j).log ++ [(q, p)]⟩ }
    | .blockedGet q =>
      match (s.queues q).pending with
      | [] => s
      | p :: rest =>
        { s with
          queues := upd s.queues q ⟨rest, (s.queues q).unfinished, (s.queues q).history⟩,
          consumers := upd s.consumers j ⟨.performing p, (s.consumers j).log ++ [(q, p)]⟩ }
    | .performing _ =>
      { s with consumers := upd s.consumers j ⟨.inFinally raised, (s.consumers j).log⟩ }
    | .inFinally b =>
      match s.w.task_queue with
      | none => { s with consumers := upd s.consumers j ⟨.dead, (s.consumers j).log⟩ }
      | some q =>
        if (s.queues q).unfinished = 0 then
          { s with consumers := upd s.consumers j ⟨.dead, (s.consumers j).log⟩ }
        else
          { s with
            queues := upd s.queues q ⟨(s.queues q).pending,
              (s.queues q).unfinished - 1, (s.queues q).history⟩,
            consumers := upd s.consumers j ⟨if b then .dead else .loopTop,
              (s.consumers j).log⟩ }
    | .dead => s
  else s

/-- Entering `Worker.wrap_task_event` (src/service.py:131-135):
`self._task_event = Event()` — allocate a fresh, unset event. -/
def wrap_task_event_enter (s : Sys) : Sys :=
  { s with
    events := upd s.events s.nevents false,
    nevents := s.nevents + 1,
    w := { s.w with task_event := some s.nevents } }

/-- Leaving `Worker.wrap_task_event` (src/service.py:137-139):
`self._task_event.set(); self._task_event = None`.  Greenlets that
captured the event object still see it set after the field is nulled. -/
def wrap_task_event_exit (s : Sys) : Sys :=
  match s.w.task_event with
  | none => s
  | some i =>
    { s with events := upd s.events i true, w := { s.w with task_event := none } }

/-- Invocation of `Worker.queue_wait` (src/service.py:164-175) with
payload `pl`: on `auth_request` failure the greenlet writes the 403 and
stops (`wrejected`).  Otherwise, `if self._task_event:` — the field is
truthy exactly when it is not `None` — the greenlet calls `wait()` on
the captured event: it continues immediately when the event is already
set, else blocks; with no event it acknowledges at once.  There is no
yield point between the truthiness test and `wait()`. -/
def queue_wait_invoke (s : Sys) (pl : Payload) : Sys :=
  match s.waiter with
  | .widle =>
    if auth_request s.w pl then
      match s.w.task_event with
      | none => { s with waiter := .wacked none }
      | some i =>
        if s.events i then { s with waiter := .wacked (some i) }
        else { s with waiter := .wblocked i }
    else { s with waiter := .wrejected }
  | _ => s

/-- The blocked `queue_wait` greenlet being scheduled: `Event.wait()`
returns only once the captured event is set, after which the greenlet
writes its 200 `Bokay` acknowledgement. -/
def queue_wait_wake (s : Sys) : Sys :=
  match s.waiter with
  | .wblocked i => if s.events i then { s with waiter := .wacked (some i) } else s
  | _ => s

/-- Invocation of `Worker.queue_join` (src/service.py:178-192) with
payload `pl`: on `auth_request` failure the greenlet writes the 403 and
stops (`jrejected`).  Otherwise it writes `"join queue..."` and calls
`self._task_queue.join()`, capturing the current queue; with
`self._task_queue = None` the attribute access raises (`jcrashed`). -/
def queue_join_invoke (s : Sys) (pl : Payload) : Sys :=
  match s.joiner with
  | .jidle =>
    if auth_request s.w pl then
      match s.w.task_queue with
      | none => { s with joiner := .jcrashed }
      | some q => { s with joiner := .jblocked q }
    else { s with joiner := .jrejected }
  | _ => s

/-- The blocked `queue_join` greenlet being scheduled:
`JoinableQueue.join()` returns only once the joined queue's
`unfinished` counter is zero, after which the greenlet writes the final
`"done"`. -/
def queue_join_resume (s : Sys) : Sys :=
  match s.joiner with
  | .jblocked q =>
    if (s.queues q).unfinished = 0 then { s with joiner := .jdone } else s
  | _ => s

/-- A scheduling decision of the adversarial scheduler. -/
inductive Act
  | prep
  | put (p : Nat)
  | consumer (j : Nat) (raised : Bool)
  | phaseStart
  | phaseEnd
  | waitInvoke (pl : Payload)
  | waitWake
  | joinInvoke (pl : Payload)
  | joinResume
deriving Repr, DecidableEq

/-- One step of the whole system. -/
def step (s : Sys) : Act → Sys
  | .prep => prep_task_queue s
  | .put p => put_task_queue s p
  | .consumer j raised => consume_step s j raised
  | .phaseStart => wrap_task_event_enter s
  | .phaseEnd => wrap_task_event_exit s
  | .waitInvoke pl => queue_wait_invoke s pl
  | .waitWake => queue_wait_wake s
  | .joinInvoke pl => queue_join_invoke s pl
  | .joinResume => queue_join_resume s

/-- Run a trace of scheduling decisions. -/
def run (s : Sys) (acts : List Act) : Sys :=
  acts.foldl step s

/-- C4: for every credential-gated operation and every request payload
whose `(prefix, shard_id)` does not match the Worker's stored
credential, the operation is rejected and the Worker's state is
identical before and after the request.  `ring_init`, `queue_wait` and
`queue_join` are gated by `auth_request` and produce the 403-equivalent
rejection; `shard_stop` performs the same comparison itself and on
mismatch merely logs (the server is not stopped, nothing changes). -/
theorem auth_mismatch_rejected_no_side_effects
    (s : Sys) (pl : Payload) (h : auth_request s.w pl = false)
    (hw : s.waiter = .widle) (hj : s.joiner = .jidle) :
    (ring_init s.w pl).1 = s.w ∧
    (ring_init s.w pl).2 = forbiddenResponse ∧
    step s (.waitInvoke pl) = { s with waiter := .wrejected } ∧
    step s (.joinInvoke pl) = { s with joiner := .jrejected } ∧
    shard_stop s.w pl = s.w := by
  have h' : (s.w.pfx == pl.pfx && s.w.shard_id == pl.shard_id) = false := h
  refine ⟨?_, ?_, ?_, ?_, ?_⟩
  · simp [ring_init, h]
  · simp [ring_init, h]
  · simp [step, queue_wait_invoke, hw, h]
  · simp [step, queue_join_invoke, hj, h]
  · simp [shard_stop, h']

/-- A configured worker state used to witness credential-mismatch
rejection. -/
def cfgWorker : WorkerState :=
  { initWorker with is_config := true, pfx := some "/tmp/exelixi/run0",
                    shard_id := some "shard/0" }

/-- A request payload carrying a wrong shard credential. -/
def wrongCredPayload : Payload :=
  { pfx := some "/tmp/exelixi/run0", shard_id := some "shard/1",
    uow_name := "", ring := [] }

/-- Witness for C4 at a concrete input. -/
theorem auth_mismatch_rejected_no_side_effects_witness :
    auth_request cfgWorker wrongCredPayload = false ∧
    (ring_init cfgWorker wrongCredPayload).1 = cfgWorker ∧
    shard_stop cfgWorker wrongCredPayload = cfgWorker :=
  have h := auth_mismatch_rejected_no_side_effects
    { initSys with w := cfgWorker } wrongCredPayload (by decide) rfl rfl
  ⟨by decide, h.1, h.2.2.2.2⟩

/-- The all-null-credential payload an unconfigured Worker accepts. -/
def nullCredPayload : Payload :=
  { pfx := none, shard_id := none, uow_name := "", ring := [("shard/0", "host:9311")] }

/-- C10: a Worker that has never been configured stores
`prefix = None` and `shard_id = None`, so `auth_request` compares
`None == None` and returns `True` for a payload whose credential fields
are both null; consequently every credential-gated operation is
accepted (not rejected with the 403) on the fresh Worker: `ring_init`
stores the ring and acknowledges 200, `queue_wait` acknowledges
immediately (no phase is active), `queue_join` passes the credential
gate and writes `"join queue..."` (it then crashes on the `None` task
queue rather than being rejected), and `shard_stop` stops the server. -/
theorem unconfigured_null_credentials_accepted :
    auth_request initWorker nullCredPayload = true ∧
    (ring_init initWorker nullCredPayload).2.status = .ok200 ∧
    (ring_init initWorker nullCredPayload).1.ring = some nullCredPayload.ring ∧
    (step initSys (.waitInvoke nullCredPayload)).waiter = .wacked none ∧
    (step initSys (.joinInvoke nullCredPayload)).joiner ≠ .jrejected ∧
    (shard_stop initWorker nullCredPayload).stopped = true := by
  refine ⟨by decide, by decide, by decide, ?_, ?_, by decide⟩
  · simp [step, queue_wait_invoke, initSys, auth_request, initWorker, nullCredPayload]
  · simp [step, queue_join_invoke, initSys, auth_request, initWorker, nullCredPayload]


/-- `prep_task_queue` does not touch the phase/wait/join machinery. -/
theorem prep_task_queue_frame (s : Sys) :
    (prep_task_queue s).waiter = s.waiter ∧ (prep_task_queue s).events = s.events ∧
    (prep_task_queue s).nevents = s.nevents ∧
    (prep_task_queue s).w.task_event = s.w.task_event ∧
    (prep_task_queue s).joiner = s.joiner := by
  simp [prep_task_queue]

/-- `put_task_queue` only modifies the queue store. -/
theorem put_task_queue_frame (s : Sys) (p : Nat) :
    (put_task_queue s p).w = s.w ∧ (put_task_queue s p).waiter = s.waiter ∧
    (put_task_queue s p).events = s.events ∧ (put_task_queue s p).nevents = s.nevents ∧
    (put_task_queue s p).joiner = s.joiner ∧ (put_task_queue s p).nq = s.nq ∧
    (put_task_queue s p).consumers = s.consumers := by
  unfold put_task_queue
  cases htq : s.w.task_queue with
  | none => simp
  | some q => simp

/-- `consume_step` only modifies the queue and consumer stores. -/
theorem consume_step_frame (s : Sys) (j : Nat) (b : Bool) :
    (consume_step s j b).w = s.w ∧ (consume_step s j b).waiter = s.waiter ∧
    (consume_step s j b).events = s.events ∧ (consume_step s j b).nevents = s.nevents ∧
    (consume_step s j b).joiner = s.joiner ∧ (consume_step s j b).nq = s.nq := by
  unfold consume_step
  by_cases hj : j < s.nq
  · simp only [hj, if_true]
    cases hpc : (s.consumers j).pc with
    | loopTop =>
      cases htq : s.w.task_queue with
      | none => simp
      | some q =>
        cases hp : (s.queues q).pending with
        | nil => simp [hp]
        | cons p rest => simp [hp]
    | blockedGet q =>
      cases hp : (s.queues q).pending with
      | nil => simp [hp]
      | cons p rest => simp [hp]
    | performing p => simp
    | inFinally b2 =>
      cases htq : s.w.task_queue with
      | none => simp
      | some q =>
        by_cases hu : (s.queues q).unfinished = 0
        · simp [hu]
        · simp [hu]
    | dead => simp
  · simp [hj]

/-- `wrap_task_event_enter` does not touch the queue machinery. -/
theorem wrap_task_event_enter_frame (s : Sys) :
    (wrap_task_event_enter s).nq = s.nq ∧ (wrap_task_event_enter s).queues = s.queues ∧
    (wrap_task_event_enter s).consumers = s.consumers ∧
    (wrap_task_event_enter s).w.task_queue = s.w.task_queue ∧
    (wrap_task_event_enter s).waiter = s.waiter ∧
    (wrap_task_event_enter s).joiner = s.joiner := by
  simp [wrap_task_event_enter]

/-- `wrap_task_event_exit` does not touch the queue machinery. -/
theorem wrap_task_event_exit_frame (s : Sys) :
    (wrap_task_event_exit s).nq = s.nq ∧ (wrap_task_event_exit s).queues = s.queues ∧
    (wrap_task_event_exit s).consumers = s.consumers ∧
    (wrap_task_event_exit s).w.task_queue = s.w.task_queue ∧
    (wrap_task_event_exit s).waiter = s.waiter ∧
    (wrap_task_event_exit s).joiner = s.joiner ∧
    (wrap_task_event_exit s).nevents = s.nevents := by
  unfold wrap_task_event_exit
  cases hte : s.w.task_event with
  | none => simp
  | some i => simp

/-- `queue_wait_invoke` only modifies the waiter. -/
theorem queue_wait_invoke_frame (s : Sys) (pl : Payload) :
    (queue_wait_invoke s pl).w = s.w ∧ (queue_wait_invoke s pl).events = s.events ∧
    (queue_wait_invoke s pl).nevents = s.nevents ∧ (queue_wait_invoke s pl).nq = s.nq ∧
    (queue_wait_invoke s pl).queues = s.queues ∧
    (queue_wait_invoke s pl).consumers = s.consumers ∧
    (queue_wait_invoke s pl).joiner = s.joiner := by
  unfold queue_wait_invoke
  cases hwt : s.waiter with
  | widle =>
    by_cases ha : auth_request s.w pl
    · simp only [ha, if_true]
      cases hte : s.w.task_event with
      | none => simp
      | some i =>
        by_cases hev : s.events i
        · simp [hev]
        · simp [hev]
    · simp [ha]
  | wblocked i => simp
  | wacked c => simp
  | wrejected => simp

/-- `queue_wait_wake` only modifies the waiter. -/
theorem queue_wait_wake_frame (s : Sys) :
    (queue_wait_wake s).w = s.w ∧ (queue_wait_wake s).events = s.events ∧
    (queue_wait_wake s).nevents = s.nevents ∧ (queue_wait_wake s).nq = s.nq ∧
    (queue_wait_wake s).queues = s.queues ∧ (queue_wait_wake s).consumers = s.consumers ∧
    (queue_wait_wake s).joiner = s.joiner := by
  unfold queue_wait_wake
  cases hwt : s.waiter with
  | wblocked i =>
    by_cases hev : s.events i
    · simp [hev]
    · simp [hev]
  | widle => simp
  | wacked c => simp
  | wrejected => simp

/-- `queue_join_invoke` only modifies the joiner. -/
theorem queue_join_invoke_frame (s : Sys) (pl : Payload) :
    (queue_join_invoke s pl).w = s.w ∧ (queue_join_invoke s pl).events = s.events ∧
    (queue_join_invoke s pl).nevents = s.nevents ∧ (queue_join_invoke s pl).nq = s.nq ∧
    (queue_join_invoke s pl).queues = s.queues ∧
    (queue_join_invoke s pl).consumers = s.consumers ∧
    (queue_join_invoke s pl).waiter = s.waiter := by
  unfold queue_join_invoke
  cases hjt : s.joiner with
  | jidle =>
    by_cases ha : auth_request s.w pl
    · simp only [ha, if_true]
      cases htq : s.w.task_queue with
      | none => simp
      | some q => simp
    · simp [ha]
  | jblocked q => simp
  | jdone => simp
  | jrejected => simp
  | jcrashed => simp

/-- `queue_join_resume` only modifies the joiner. -/
theorem queue_join_resume_frame (s : Sys) :
    (queue_join_resume s).w = s.w ∧ (queue_join_resume s).events = s.events ∧
    (queue_join_resume s).nevents = s.nevents ∧ (queue_join_resume s).nq = s.nq ∧
    (queue_join_resume s).queues = s.queues ∧ (queue_join_resume s).consumers = s.consumers ∧
    (queue_join_resume s).waiter = s.waiter := by
  unfold queue_join_resume
  cases hjt : s.joiner with
  | jblocked q =>
    by_cases hu : (s.queues q).unfinished = 0
    · simp [hu]
    · simp [hu]
  | jidle => simp
  | jdone => simp
  | jrejected => simp
  | jcrashed => simp

/-- Safety invariant for `queue_wait` (src/service.py:164-175): every
event index the Worker or the wait greenlet holds is allocated, and an
acknowledged waiter that waited for a phase (`wacked (some i)`) only
acknowledged once that phase's event was set. -/
def WaitInv (s : Sys) : Prop :=
  (∀ i, s.w.task_event = some i → i < s.nevents) ∧
  (∀ i, s.waiter = .wblocked i → i < s.nevents) ∧
  (∀ i, s.waiter = .wacked (some i) → i < s.nevents ∧ s.events i = true)

/-- `WaitInv` only depends on `task_event`, `waiter`, `nevents`, `events`. -/
theorem waitInv_congr (s s' : Sys) (hte : s'.w.task_event = s.w.task_event)
    (hw : s'.waiter = s.waiter) (hne : s'.nevents = s.nevents)
    (hev : s'.events = s.events) (h : WaitInv s) : WaitInv s' := by
  obtain ⟨h1, h2, h3⟩ := h
  refine ⟨fun i hi => ?_, fun i hi => ?_, fun i hi => ?_⟩
  · rw [hne]; exact h1 i (by rw [hte] at hi; exact hi)
  · rw [hne]; exact h2 i (by rw [hw] at hi; exact hi)
  · rw [hne, hev]; exact h3 i (by rw [hw] at hi; exact hi)


/-- `WaitInv` is preserved by every scheduling step. -/
theorem waitInv_step (s : Sys) (a : Act) (h : WaitInv s) : WaitInv (step s a) := by
  cases a with
  | prep =>
    obtain ⟨f1, f2, f3, f4, _⟩ := prep_task_queue_frame s
    show WaitInv (prep_task_queue s)
    exact waitInv_congr s _ f4 f1 f3 f2 h
  | put p =>
    obtain ⟨fw, f1, f2, f3, _, _, _⟩ := put_task_queue_frame s p
    show WaitInv (put_task_queue s p)
    exact waitInv_congr s _ (by rw [fw]) f1 f3 f2 h
  | consumer j b =>
    obtain ⟨fw, f1, f2, f3, _, _⟩ := consume_step_frame s j b
    show WaitInv (consume_step s j b)
    exact waitInv_congr s _ (by rw [fw]) f1 f3 f2 h
  | joinInvoke pl =>
    obtain ⟨fw, f2, f3, _, _, _, f7⟩ := queue_join_invoke_frame s pl
    show WaitInv (queue_join_invoke s pl)
    exact waitInv_congr s _ (by rw [fw]) f7 f3 f2 h
  | joinResume =>
    obtain ⟨fw, f2, f3, _, _, _, f7⟩ := queue_join_resume_frame s
    show WaitInv (queue_join_resume s)
    exact waitInv_congr s _ (by rw [fw]) f7 f3 f2 h
  | phaseStart =>
    obtain ⟨h1, h2, h3⟩ := h
    refine ⟨fun i hi => ?_, fun i hi => ?_, fun i hi => ?_⟩
    · simp [step, wrap_task_event_enter] at hi ⊢; omega
    · simp only [step, wrap_task_event_enter] at hi ⊢
      exact Nat.lt_succ_of_lt (h2 i hi)
    · simp only [step, wrap_task_event_enter] at hi ⊢
      obtain ⟨hlt, hev⟩ := h3 i hi
      refine ⟨Nat.lt_succ_of_lt hlt, ?_⟩
      rw [upd_other s.events s.nevents false i (Nat.ne_of_lt hlt)]
      exact hev
  | phaseEnd =>
    obtain ⟨h1, h2, h3⟩ := h
    show WaitInv (wrap_task_event_exit s)
    unfold wrap_task_event_exit
    cases hte : s.w.task_event with
    | none => exact ⟨h1, h2, h3⟩
    | some j =>
      refine ⟨fun i hi => ?_, fun i hi => ?_, fun i hi => ?_⟩
      · simp at hi
      · exact h2 i hi
      · obtain ⟨hlt, hev⟩ := h3 i hi
        refine ⟨hlt, ?_⟩
        show upd s.events j true i = true
        by_cases hij : i = j
        · subst hij; rw [upd_same]
        · rw [upd_other s.events j true i hij]; exact hev
  | waitInvoke pl =>
    obtain ⟨h1, h2, h3⟩ := h
    show WaitInv (queue_wait_invoke s pl)
    cases hwt : s.waiter with
    | widle =>
      cases ha : auth_request s.w pl with
      | false =>
        have he : queue_wait_invoke s pl = { s with waiter := .wrejected } := by
          simp [queue_wait_invoke, hwt, ha]
        rw [he]
        exact ⟨h1, fun i hi => by simp at hi, fun i hi => by simp at hi⟩
      | true =>
        cases hte : s.w.task_event with
        | none =>
          have he : queue_wait_invoke s pl = { s with waiter := .wacked none } := by
            simp [queue_wait_invoke, hwt, ha, hte]
          rw [he]
          exact ⟨h1, fun i hi => by simp at hi, fun i hi => by simp at hi⟩
        | some j =>
          cases hev : s.events j with
          | true =>
            have he : queue_wait_invoke s pl = { s with waiter := .wacked (some j) } := by
              simp [queue_wait_invoke, hwt, ha, hte, hev]
            rw [he]
            refine ⟨h1, fun i hi => by simp at hi, fun i hi => ?_⟩
            have hji : j = i := by simpa using hi
            subst hji
            exact ⟨h1 j hte, hev⟩
          | false =>
            have he : queue_wait_invoke s pl = { s with waiter := .wblocked j } := by
              simp [queue_wait_invoke, hwt, ha, hte, hev]
            rw [he]
            refine ⟨h1, fun i hi => ?_, fun i hi => by simp at hi⟩
            have hji : j = i := by simpa using hi
            subst hji
            exact h1 j hte
    | wblocked j =>
      have he : queue_wait_invoke s pl = s := by simp [queue_wait_invoke, hwt]
      rw [he]; exact ⟨h1, h2, h3⟩
    | wacked c =>
      have he : queue_wait_invoke s pl = s := by simp [queue_wait_invoke, hwt]
      rw [he]; exact ⟨h1, h2, h3⟩
    | wrejected =>
      have he : queue_wait_invoke s pl = s := by simp [queue_wait_invoke, hwt]
      rw [he]; exact ⟨h1, h2, h3⟩
  | waitWake =>
    obtain ⟨h1, h2, h3⟩ := h
    show WaitInv (queue_wait_wake s)
    cases hwt : s.waiter with
    | wblocked j =>
      cases hev : s.events j with
      | true =>
        have he : queue_wait_wake s = { s with waiter := .wacked (some j) } := by
          simp [queue_wait_wake, hwt, hev]
        rw [he]
        refine ⟨h1, fun i hi => by simp at hi, fun i hi => ?_⟩
        have hji : j = i := by simpa using hi
        subst hji
        exact ⟨h2 j hwt, hev⟩
      | false =>
        have he : queue_wait_wake s = s := by simp [queue_wait_wake, hwt, hev]
        rw [he]; exact ⟨h1, h2, h3⟩
    | widle =>
      have he : queue_wait_wake s = s := by simp [queue_wait_wake, hwt]
      rw [he]; exact ⟨h1, h2, h3⟩
    | wacked c =>
      have he : queue_wait_wake s = s := by simp [queue_wait_wake, hwt]
      rw [he]; exact ⟨h1, h2, h3⟩
    | wrejected =>
      have he : queue_wait_wake s = s := by simp [queue_wait_wake, hwt]
      rw [he]; exact ⟨h1, h2, h3⟩

/-- `WaitInv` is preserved by every trace. -/
theorem waitInv_run (acts : List Act) (s : Sys) (h : WaitInv s) : WaitInv (run s acts) := by
  induction acts generalizing s with
  | nil => exact h
  | cons a rest ih => exact ih (step s a) (waitInv_step s a h)

/-- `WaitInv` holds in the initial system. -/
theorem waitInv_init : WaitInv initSys := by
  refine ⟨fun i hi => ?_, fun i hi => ?_, fun i hi => ?_⟩ <;>
    simp [initSys, initWorker] at hi

/-- C5: `queue_wait`, invoked with a matching credential, acknowledges
in the very step of its invocation when no production phase is active
(`self._task_event = None`); when a phase is active and its event is
not yet set, the request blocks on that event instead of acknowledging;
and along every trace the `WaitInv` safety property is preserved, so a
wait request that waited for a phase is acknowledged only in states
where that phase's event has been set — never before. -/
theorem queue_wait_ack_semantics :
    (∀ s pl, s.waiter = .widle → auth_request s.w pl = true → s.w.task_event = none →
      (step s (.waitInvoke pl)).waiter = .wacked none) ∧
    (∀ s pl i, s.waiter = .widle → auth_request s.w pl = true →
      s.w.task_event = some i → s.events i = false →
      (step s (.waitInvoke pl)).waiter = .wblocked i) ∧
    (∀ s pl i, s.waiter = .widle → auth_request s.w pl = true →
      s.w.task_event = some i → s.events i = true →
      (step s (.waitInvoke pl)).waiter = .wacked (some i)) ∧
    (∀ s acts, WaitInv s → WaitInv (run s acts)) := by
  refine ⟨?_, ?_, ?_, fun s acts h => waitInv_run acts s h⟩
  · intro s pl hwt ha hte
    simp [step, queue_wait_invoke, hwt, ha, hte]
  · intro s pl i hwt ha hte hev
    simp [step, queue_wait_invoke, hwt, ha, hte, hev]
  · intro s pl i hwt ha hte hev
    simp [step, queue_wait_invoke, hwt, ha, hte, hev]

/-- Witness for C5 at concrete inputs: on the fresh system (no phase
active) a null-credential wait acknowledges immediately, and `WaitInv`
holds after a concrete trace that starts a phase and invokes a wait. -/
theorem queue_wait_ack_semantics_witness :
    (step initSys (.waitInvoke nullCredPayload)).waiter = .wacked none ∧
    WaitInv (run initSys [.phaseStart, .waitInvoke nullCredPayload, .phaseEnd, .waitWake]) :=
  ⟨queue_wait_ack_semantics.1 initSys nullCredPayload rfl (by decide) rfl,
   queue_wait_ack_semantics.2.2.2 initSys
     [.phaseStart, .waitInvoke nullCredPayload, .phaseEnd, .waitWake] waitInv_init⟩

/-- C6: `queue_join`, invoked with a matching credential, writes its
final `"done"` acknowledgement only when the queue it joined has
drained: while the joined queue's `unfinished` counter is nonzero —
i.e. while any enqueued payload has not been fully processed — no
scheduling step can produce the `"done"` emission; the only step that
ever produces it is the resumption of `JoinableQueue.join()` on a
drained queue; and conversely a blocked join resumes and emits
`"done"` as soon as the queue is drained, in any state whatsoever of
the PhaseEvent machinery (`queue_join_resume` never consults
`task_event` or `events`): the join waits only on queue drain. -/
theorem queue_join_done_only_when_drained :
    (∀ s q a, s.joiner = .jblocked q → (s.queues q).unfinished ≠ 0 →
      (step s a).joiner ≠ .jdone) ∧
    (∀ s a, s.joiner ≠ .jdone → (step s a).joiner = .jdone →
      ∃ q, s.joiner = .jblocked q ∧ (s.queues q).unfinished = 0 ∧ a = .joinResume) ∧
    (∀ s q, s.joiner = .jblocked q → (s.queues q).unfinished = 0 →
      (step s .joinResume).joiner = .jdone) := by
  refine ⟨?_, ?_, ?_⟩
  · intro s q a hjq hu
    cases a with
    | prep => rw [show (step s .prep).joiner = s.joiner from (prep_task_queue_frame s).2.2.2.2]
              rw [hjq]; simp
    | put p => rw [show (step s (.put p)).joiner = s.joiner from
                 (put_task_queue_frame s p).2.2.2.2.1]
               rw [hjq]; simp
    | consumer j b => rw [show (step s (.consumer j b)).joiner = s.joiner from
                        (consume_step_frame s j b).2.2.2.2.1]
                      rw [hjq]; simp
    | phaseStart => rw [show (step s .phaseStart).joiner = s.joiner from
                      (wrap_task_event_enter_frame s).2.2.2.2.2]
                    rw [hjq]; simp
    | phaseEnd => rw [show (step s .phaseEnd).joiner = s.joiner from
                    (wrap_task_event_exit_frame s).2.2.2.2.2.1]
                  rw [hjq]; simp
    | waitInvoke pl => rw [show (step s (.waitInvoke pl)).joiner = s.joiner from
                         (queue_wait_invoke_frame s pl).2.2.2.2.2.2]
                       rw [hjq]; simp
    | waitWake => rw [show (step s .waitWake).joiner = s.joiner from
                    (queue_wait_wake_frame s).2.2.2.2.2.2]
                  rw [hjq]; simp
    | joinInvoke pl =>
      have he : queue_join_invoke s pl = s := by simp [queue_join_invoke, hjq]
      show (queue_join_invoke s pl).joiner ≠ .jdone
      rw [he, hjq]; simp
    | joinResume =>
      have he : queue_join_resume s = s := by simp [queue_join_resume, hjq, hu]
      show (queue_join_resume s).joiner ≠ .jdone
      rw [he, hjq]; simp
  · intro s a hne hi
    cases a with
    | prep => exact absurd (((prep_task_queue_frame s).2.2.2.2) ▸ hi) hne
    | put p => exact absurd (((put_task_queue_frame s p).2.2.2.2.1) ▸ hi) hne
    | consumer j b => exact absurd (((consume_step_frame s j b).2.2.2.2.1) ▸ hi) hne
    | phaseStart => exact absurd (((wrap_task_event_enter_frame s).2.2.2.2.2) ▸ hi) hne
    | phaseEnd => exact absurd (((wrap_task_event_exit_frame s).2.2.2.2.2.1) ▸ hi) hne
    | waitInvoke pl => exact absurd (((queue_wait_invoke_frame s pl).2.2.2.2.2.2) ▸ hi) hne
    | waitWake => exact absurd (((queue_wait_wake_frame s).2.2.2.2.2.2) ▸ hi) hne
    | joinInvoke pl =>
      exfalso
      cases hjt : s.joiner with
      | jidle =>
        cases ha : auth_request s.w pl with
        | false =>
          have he : queue_join_invoke s pl = { s with joiner := .jrejected } := by
            simp [queue_join_invoke, hjt, ha]
          rw [show step s (.joinInvoke pl) = queue_join_invoke s pl from rfl, he] at hi
          simp at hi
        | true =>
          cases htq : s.w.task_queue with
          | none =>
            have he : queue_join_invoke s pl = { s with joiner := .jcrashed } := by
              simp [queue_join_invoke, hjt, ha, htq]
            rw [show step s (.joinInvoke pl) = queue_join_invoke s pl from rfl, he] at hi
            simp at hi
          | some q =>
            have he : queue_join_invoke s pl = { s with joiner := .jblocked q } := by
              simp [queue_join_invoke, hjt, ha, htq]
            rw [show step s (.joinInvoke pl) = queue_join_invoke s pl from rfl, he] at hi
            simp at hi
      | jblocked q =>
        have he : queue_join_invoke s pl = s := by simp [queue_join_invoke, hjt]
        rw [show step s (.joinInvoke pl) = queue_join_invoke s pl from rfl, he] at hi
        exact hne hi
      | jdone => exact hne hjt
      | jrejected =>
        have he : queue_join_invoke s pl = s := by simp [queue_join_invoke, hjt]
        rw [show step s (.joinInvoke pl) = queue_join_invoke s pl from rfl, he] at hi
        exact hne hi
      | jcrashed =>
        have he : queue_join_invoke s pl = s := by simp [queue_join_invoke, hjt]
        rw [show step s (.joinInvoke pl) = queue_join_invoke s pl from rfl, he] at hi
        exact hne hi
    | joinResume =>
      cases hjt : s.joiner with
      | jblocked q =>
        by_cases hu : (s.queues q).unfinished = 0
        · exact ⟨q, rfl, hu, rfl⟩
        · exfalso
          have he : queue_join_resume s = s := by simp [queue_join_resume, hjt, hu]
          rw [show step s .joinResume = queue_join_resume s from rfl, he] at hi
          exact hne hi
      | jidle =>
        exfalso
        have he : queue_join_resume s = s := by simp [queue_join_resume, hjt]
        rw [show step s .joinResume = queue_join_resume s from rfl, he] at hi
        exact hne hi
      | jdone => exact absurd hjt hne
      | jrejected =>
        exfalso
        have he : queue_join_resume s = s := by simp [queue_join_resume, hjt]
        rw [show step s .joinResume = queue_join_resume s from rfl, he] at hi
        exact hne hi
      | jcrashed =>
        exfalso
        have he : queue_join_resume s = s := by simp [queue_join_resume, hjt]
        rw [show step s .joinResume = queue_join_resume s from rfl, he] at hi
        exact hne hi
  · intro s q hjq hu
    simp [step, queue_join_resume, hjq, hu]

/-- Witness for C6 at concrete inputs: after `prep` and an authorized
join invocation the joiner is blocked on queue 0; once a payload is put
the queue is undrained and the counterexample hypotheses hold; on the
drained queue the resume step emits done. -/
theorem queue_join_done_only_when_drained_witness :
    ((run initSys [.prep, .joinInvoke nullCredPayload, .put 7]).joiner = .jblocked 0 ∧
     (((run initSys [.prep, .joinInvoke nullCredPayload, .put 7]).queues 0).unfinished ≠ 0) ∧
     (step (run initSys [.prep, .joinInvoke nullCredPayload, .put 7]) .joinResume).joiner ≠
       .jdone) ∧
    ((run initSys [.prep, .joinInvoke nullCredPayload]).joiner = .jblocked 0 ∧
     (step (run initSys [.prep, .joinInvoke nullCredPayload]) .joinResume).joiner = .jdone) :=
  ⟨⟨by decide, by decide,
    queue_join_done_only_when_drained.1
      (run initSys [.prep, .joinInvoke nullCredPayload, .put 7]) 0 .joinResume
      (by decide) (by decide)⟩,
   ⟨by decide,
    queue_join_done_only_when_drained.2.2
      (run initSys [.prep, .joinInvoke nullCredPayload]) 0 (by decide) (by decide)⟩⟩

/-- C7 amended: the `try/finally` of `_consume_task_queue`
(src/service.py:147-150) guarantees that for every dequeued payload the
step of `perform_task` leads to the `finally` clause whether or not the
call raises, and the `finally` clause marks the item processed
(`task_done`, decrementing the queue's `unfinished` counter) in both
cases; a consumer whose loop has terminated is inert.  However, after a
raise the exception propagates out of the `while` loop and the consumer
greenlet dies (`pc = dead` exactly when the raise flag was set), so the
failing payload itself cannot hang `queue_join`, but the payloads left
behind are never consumed. -/
theorem task_done_runs_despite_raise :
    (∀ s j p b, j < s.nq → (s.consumers j).pc = .performing p →
      ((consume_step s j b).consumers j).pc = .inFinally b ∧
      (consume_step s j b).queues = s.queues) ∧
    (∀ s j q b c, j < s.nq → (s.consumers j).pc = .inFinally b →
      s.w.task_queue = some q → (s.queues q).unfinished ≠ 0 →
      ((consume_step s j c).queues q).unfinished = (s.queues q).unfinished - 1 ∧
      ((consume_step s j c).consumers j).pc = (if b then .dead else .loopTop)) ∧
    (∀ s j b, (s.consumers j).pc = .dead → consume_step s j b = s) := by
  refine ⟨?_, ?_, ?_⟩
  · intro s j p b hj hpc
    simp [consume_step, hj, hpc, upd]
  · intro s j q b c hj hpc htq hu
    simp [consume_step, hj, hpc, htq, hu, upd]
  · intro s j b hpc
    by_cases hj : j < s.nq
    · simp [consume_step, hj, hpc]
    · simp [consume_step, hj]

/-- The trace of the C7 counterexample: one queue, two payloads, the
first `perform_task` raising. -/
def c7Trace : List Act :=
  [.prep, .put 1, .put 2, .consumer 0 true, .consumer 0 true, .consumer 0 true,
   .joinInvoke nullCredPayload]

/-- Witness for the C7 amended theorem at concrete inputs along
`c7Trace`: the raising `perform_task` still reaches the `finally`, the
`finally` still decrements `unfinished`, and the dead consumer is
inert. -/
theorem task_done_runs_despite_raise_witness :
    ((consume_step (run initSys (List.take 4 c7Trace)) 0 true).consumers 0).pc =
      .inFinally true ∧
    ((consume_step (run initSys (List.take 5 c7Trace)) 0 true).queues 0).unfinished =
      ((run initSys (List.take 5 c7Trace)).queues 0).unfinished - 1 ∧
    consume_step (run initSys c7Trace) 0 false = run initSys c7Trace :=
  ⟨(task_done_runs_despite_raise.1 (run initSys (List.take 4 c7Trace)) 0 1 true
      (by decide) (by decide)).1,
   (task_done_runs_despite_raise.2.1 (run initSys (List.take 5 c7Trace)) 0 0 true true
      (by decide) (by decide) (by decide) (by decide)).1,
   task_done_runs_despite_raise.2.2 (run initSys c7Trace) 0 false (by decide)⟩

/-- C7 counterexample: a single failing payload *can* make `queue_join`
hang forever.  Along `c7Trace`, payload `1` is dequeued,`perform_task`
raises, the `finally` marks payload `1` processed (`unfinished` drops
from 2 to 1 — the failing item itself never hangs the join), but the
exception then terminates the consumer loop: the consumer greenlet is
dead, payload `2` is still pending, the authorized join is blocked on
the queue, resuming the join does not emit `"done"` (the queue is not
drained), and scheduling the dead consumer — with or without a further
raise — changes nothing, so `unfinished` stays nonzero forever.  This
refutes the claim's consequence that `queue_join` cannot hang forever
because of a single failing payload. -/
theorem failing_payload_kills_consumer_join_hangs :
    ((run initSys c7Trace).consumers 0).pc = .dead ∧
    ((run initSys c7Trace).consumers 0).log = [(0, 1)] ∧
    ((run initSys c7Trace).queues 0).unfinished = 1 ∧
    ((run initSys c7Trace).queues 0).pending = [2] ∧
    (run initSys c7Trace).joiner = .jblocked 0 ∧
    (step (run initSys c7Trace) .joinResume).joiner ≠ .jdone ∧
    step (run initSys c7Trace) (.consumer 0 false) = run initSys c7Trace ∧
    step (run initSys c7Trace) (.consumer 0 true) = run initSys c7Trace :=
  ⟨by decide, by decide, by decide, by decide, by decide, by decide, rfl, rfl⟩

/-- Decidable quiescence test for `prep_task_queue`: every consumer
greenlet is parked inside `get()` on its own queue, which is drained
(`prep_task_queue`'s documented precondition — "prepare task_queue for
another set of distributed tasks" — a previous queue has no in-flight
or pending work when a new phase starts). -/
def quiescentB (s : Sys) : Bool :=
  (List.range s.nq).all fun i =>
    ((s.consumers i).pc == .blockedGet i) && ((s.queues i).pending == []) &&
      ((s.queues i).unfinished == 0)

/-- A trace is well-used when `prep_task_queue` is only invoked at
quiescent states. -/
def okRunB : Sys → List Act → Bool
  | _, [] => true
  | s, .prep :: rest => quiescentB s && okRunB (step s .prep) rest
  | s, a :: rest => okRunB (step s a) rest

/-- Contribution of a consumer's program counter to its queue's
`unfinished` counter: one task is counted between its dequeue and its
`task_done`. -/
def pcCost : CPC → Nat
  | .performing _ => 1
  | .inFinally _ => 1
  | _ => 0

/-- The shapes the active (last-created) consumer's program counter can
take: it only ever blocks on its own queue `i`. -/
def LastShape (pc : CPC) (i : Nat) : Prop :=
  pc = .loopTop ∨ pc = .blockedGet i ∨ (∃ p, pc = .performing p) ∨
    (∃ b, pc = .inFinally b) ∨ pc = .dead

/-- Per-queue bookkeeping: consumer `i`'s log only mentions queue `i`
(single consumer), the dequeued payloads followed by the pending ones
are exactly the arrival history (FIFO), and either the pair is the
current one (`i + 1 = nq`) with a well-shaped consumer and an accurate
`unfinished` counter, or it is an old, fully drained pair whose
consumer is parked forever. -/
def ConsOK (nq : Nat) (q : Queue) (c : Consumer) (i : Nat) : Prop :=
  (∀ e ∈ c.log, e.1 = i) ∧
  (c.log.map Prod.snd ++ q.pending = q.history) ∧
  (if i + 1 = nq
   then LastShape c.pc i ∧ q.unfinished = q.pending.length + pcCost c.pc
   else c.pc = .blockedGet i ∧ q.pending = [] ∧ q.unfinished = 0)

/-- The single-consumer/FIFO invariant of the queue machinery. -/
def QInv (s : Sys) : Prop :=
  s.w.task_queue = (if s.nq = 0 then none else some (s.nq - 1)) ∧
  ∀ i, i < s.nq → ConsOK s.nq (s.queues i) (s.consumers i) i

/-- `Inv` only depends on `nq`, `queues`, `consumers` and
`task_queue`. -/
theorem inv_congr (s s' : Sys) (hn : s'.nq = s.nq) (hq : s'.queues = s.queues)
    (hc : s'.consumers = s.consumers) (ht : s'.w.task_queue = s.w.task_queue)
    (h : QInv s) : QInv s' := by
  obtain ⟨h1, h2⟩ := h
  refine ⟨by rw [ht, hn]; exact h1, fun i hi => ?_⟩
  rw [hn, hq, hc]
  exact h2 i (by rw [hn] at hi; exact hi)

/-- The initial system satisfies the invariant. -/
theorem inv_init : QInv initSys := by
  refine ⟨by simp [initSys, initWorker], fun i hi => ?_⟩
  simp [initSys] at hi

/-- Unpack the decidable quiescence test. -/
theorem quiescentB_spec (s : Sys) (h : quiescentB s = true) (i : Nat) (hi : i < s.nq) :
    (s.consumers i).pc = .blockedGet i ∧ (s.queues i).pending = [] ∧
    (s.queues i).unfinished = 0 := by
  unfold quiescentB at h
  rw [List.all_eq_true] at h
  have hh := h i (List.mem_range.mpr hi)
  simp only [Bool.and_eq_true, beq_iff_eq] at hh
  exact ⟨hh.1.1, hh.1.2, hh.2⟩

/-- `prep_task_queue` at a quiescent state preserves the invariant:
the fresh queue/consumer pair becomes the current one, every older
consumer stays parked on its own drained queue. -/
theorem inv_prep (s : Sys) (h : QInv s) (hq : quiescentB s = true) :
    QInv (prep_task_queue s) := by
  obtain ⟨h1, h2⟩ := h
  constructor
  · simp [prep_task_queue]
  · intro i hi
    have hi' : i < s.nq + 1 := hi
    show ConsOK (s.nq + 1) (upd s.queues s.nq ⟨[], 0, []⟩ i)
      (upd s.consumers s.nq ⟨.loopTop, []⟩ i) i
    by_cases hieq : i = s.nq
    · subst hieq
      rw [upd_same, upd_same]
      refine ⟨by simp, by simp, ?_⟩
      rw [if_pos rfl]
      exact ⟨Or.inl rfl, by simp [pcCost]⟩
    · have hilt : i < s.nq := by omega
      rw [upd_other _ _ _ _ hieq, upd_other _ _ _ _ hieq]
      obtain ⟨hpc, hpend, hunf⟩ := quiescentB_spec s hq i hilt
      obtain ⟨hl1, hl2, _⟩ := h2 i hilt
      refine ⟨hl1, hl2, ?_⟩
      rw [if_neg (by omega)]
      exact ⟨hpc, hpend, hunf⟩

/-- `put_task_queue` preserves the invariant: the payload is appended
to the current queue's `pending` and `history` and counted in
`unfinished`. -/
theorem inv_put (s : Sys) (p : Nat) (h : QInv s) : QInv (put_task_queue s p) := by
  obtain ⟨h1, h2⟩ := h
  cases htq : s.w.task_queue with
  | none =>
    have he : put_task_queue s p = s := by simp [put_task_queue, htq]
    rw [he]; exact ⟨h1, h2⟩
  | some q =>
    have hnq0 : s.nq ≠ 0 := by
      intro h0
      rw [h1, if_pos h0] at htq
      simp at htq
    have hq : q = s.nq - 1 := by
      rw [h1, if_neg hnq0] at htq
      exact (Option.some.injEq _ _ ▸ htq.symm)
    have he : put_task_queue s p = { s with queues := upd s.queues q ⟨(s.queues q).pending ++ [p],
        (s.queues q).unfinished + 1, (s.queues q).history ++ [p]⟩ } := by
      simp [put_task_queue, htq]
    rw [he]
    refine ⟨h1, fun i hi => ?_⟩
    show ConsOK s.nq (upd s.queues q _ i) (s.consumers i) i
    by_cases hiq : i = q
    · subst hiq
      rw [upd_same]
      obtain ⟨hl1, hl2, hrest⟩ := h2 i hi
      have hcond : i + 1 = s.nq := by omega
      rw [if_pos hcond] at hrest
      obtain ⟨hshape, hunf⟩ := hrest
      refine ⟨hl1, ?_, ?_⟩
      · show _ ++ ((s.queues i).pending ++ [p]) = (s.queues i).history ++ [p]
        rw [← List.append_assoc, hl2]
      · rw [if_pos hcond]
        refine ⟨hshape, ?_⟩
        show (s.queues i).unfinished + 1 = ((s.queues i).pending ++ [p]).length + _
        rw [hunf, List.length_append]
        simp
        omega
    · rw [upd_other _ _ _ _ hiq]
      exact h2 i hi

/-- Changing only the current consumer's program counter, at equal
`unfinished` cost and to a well-formed shape, preserves the invariant. -/
theorem inv_set_pc (s : Sys) (j : Nat) (pcn : CPC) (h : QInv s) (hj : j < s.nq)
    (hlast : j + 1 = s.nq) (hshape : LastShape pcn j)
    (hcost : pcCost pcn = pcCost (s.consumers j).pc) :
    QInv { s with consumers := upd s.consumers j ⟨pcn, (s.consumers j).log⟩ } := by
  obtain ⟨h1, h2⟩ := h
  refine ⟨h1, fun i hi => ?_⟩
  show ConsOK s.nq (s.queues i) (upd s.consumers j ⟨pcn, (s.consumers j).log⟩ i) i
  by_cases hij : i = j
  · subst hij
    rw [upd_same]
    obtain ⟨hl1, hl2, hrest⟩ := h2 i hi
    rw [if_pos hlast] at hrest
    refine ⟨hl1, hl2, ?_⟩
    rw [if_pos hlast]
    exact ⟨hshape, by rw [hcost]; exact hrest.2⟩
  · rw [upd_other _ _ _ _ hij]
    exact h2 i hi

/-- The current consumer dequeuing the head of its queue preserves the
invariant: the dequeue is logged, the payload moves from `pending` to
in-flight (`performing`). -/
theorem inv_dequeue (s : Sys) (j p : Nat) (rest : List Nat) (h : QInv s) (hj : j < s.nq)
    (hlast : j + 1 = s.nq) (hp : (s.queues j).pending = p :: rest)
    (hc0 : pcCost (s.consumers j).pc = 0) :
    QInv { s with
      queues := upd s.queues j ⟨rest, (s.queues j).unfinished, (s.queues j).history⟩,
      consumers := upd s.consumers j ⟨.performing p, (s.consumers j).log ++ [(j, p)]⟩ } := by
  obtain ⟨h1, h2⟩ := h
  refine ⟨h1, fun i hi => ?_⟩
  show ConsOK s.nq (upd s.queues j _ i) (upd s.consumers j _ i) i
  by_cases hij : i = j
  · subst hij
    rw [upd_same, upd_same]
    obtain ⟨hl1, hl2, hrest⟩ := h2 i hi
    rw [if_pos hlast] at hrest
    obtain ⟨_, hunf⟩ := hrest
    refine ⟨?_, ?_, ?_⟩
    · intro e he
      rcases List.mem_append.mp he with h' | h'
      · exact hl1 e h'
      · simp only [List.mem_singleton] at h'
        rw [h']
    · show ((s.consumers i).log ++ [(i, p)]).map Prod.snd ++ rest = (s.queues i).history
      rw [List.map_append, List.append_assoc]
      rw [hp] at hl2
      simpa using hl2
    · rw [if_pos hlast]
      refine ⟨Or.inr (Or.inr (Or.inl ⟨p, rfl⟩)), ?_⟩
      show (s.queues i).unfinished = rest.length + pcCost (.performing p)
      rw [hunf, hp, hc0]
      simp [pcCost]
  · rw [upd_other _ _ _ _ hij, upd_other _ _ _ _ hij]
    exact h2 i hi

/-- The current consumer running `task_done` in the `finally` clause
preserves the invariant: the in-flight task stops being counted, and
the consumer either loops (normal return of `perform_task`) or dies
(the exception re-raises after the `finally`). -/
theorem inv_taskdone (s : Sys) (j : Nat) (b0 : Bool) (h : QInv s) (hj : j < s.nq)
    (hlast : j + 1 = s.nq) (hpc : (s.consumers j).pc = .inFinally b0) :
    QInv { s with
      queues := upd s.queues j
        ⟨(s.queues j).pending, (s.queues j).unfinished - 1, (s.queues j).history⟩,
      consumers := upd s.consumers j
        ⟨if b0 then .dead else .loopTop, (s.consumers j).log⟩ } := by
  obtain ⟨h1, h2⟩ := h
  refine ⟨h1, fun i hi => ?_⟩
  show ConsOK s.nq (upd s.queues j _ i) (upd s.consumers j _ i) i
  by_cases hij : i = j
  · subst hij
    rw [upd_same, upd_same]
    obtain ⟨hl1, hl2, hrest⟩ := h2 i hi
    rw [if_pos hlast] at hrest
    obtain ⟨_, hunf⟩ := hrest
    refine ⟨hl1, hl2, ?_⟩
    rw [if_pos hlast]
    constructor
    · cases b0 with
      | true => exact Or.inr (Or.inr (Or.inr (Or.inr (by simp))))
      | false => exact Or.inl (by simp)
    · show (s.queues i).unfinished - 1 = (s.queues i).pending.length + _
      rw [hunf, hpc]
      cases b0 with
      | true => simp [pcCost]
      | false => simp [pcCost]
  · rw [upd_other _ _ _ _ hij, upd_other _ _ _ _ hij]
    exact h2 i hi

/-- `consume_step` preserves the invariant: an old consumer is parked
forever, the current consumer walks its loop. -/
theorem inv_consumer (s : Sys) (j : Nat) (b : Bool) (h : QInv s) :
    QInv (consume_step s j b) := by
  by_cases hj : j < s.nq
  case neg =>
    have he : consume_step s j b = s := by simp [consume_step, hj]
    rw [he]; exact h
  case pos =>
  obtain ⟨h1, h2⟩ := h
  have hnq0 : s.nq ≠ 0 := by omega
  by_cases hlast : j + 1 = s.nq
  case neg =>
    obtain ⟨hl1, hl2, hrest⟩ := h2 j hj
    rw [if_neg hlast] at hrest
    obtain ⟨hpc, hpend, _⟩ := hrest
    have he : consume_step s j b = s := by simp [consume_step, hj, hpc, hpend]
    rw [he]; exact ⟨h1, h2⟩
  case pos =>
  have htqj : s.w.task_queue = some j := by
    rw [h1, if_neg hnq0]
    congr 1
    omega
  obtain ⟨hl1, hl2, hrest⟩ := h2 j hj
  rw [if_pos hlast] at hrest
  obtain ⟨hshape, hunf⟩ := hrest
  rcases hshape with hpc | hpc | ⟨p, hpc⟩ | ⟨b0, hpc⟩ | hpc
  · cases hp : (s.queues j).pending with
    | nil =>
      have he : consume_step s j b =
          { s with consumers := upd s.consumers j ⟨.blockedGet j, (s.consumers j).log⟩ } := by
        simp [consume_step, hj, hpc, htqj, hp]
      rw [he]
      exact inv_set_pc s j (.blockedGet j) ⟨h1, h2⟩ hj hlast (Or.inr (Or.inl rfl))
        (by rw [hpc]; rfl)
    | cons p rest =>
      have he : consume_step s j b =
          { s with
            queues := upd s.queues j ⟨rest, (s.queues j).unfinished, (s.queues j).history⟩,
            consumers := upd s.consumers j
              ⟨.performing p, (s.consumers j).log ++ [(j, p)]⟩ } := by
        simp [consume_step, hj, hpc, htqj, hp]
      rw [he]
      exact inv_dequeue s j p rest ⟨h1, h2⟩ hj hlast hp (by rw [hpc]; rfl)
  · cases hp : (s.queues j).pending with
    | nil =>
      have he : consume_step s j b = s := by simp [consume_step, hj, hpc, hp]
      rw [he]; exact ⟨h1, h2⟩
    | cons p rest =>
      have he : consume_step s j b =
          { s with
            queues := upd s.queues j ⟨rest, (s.queues j).unfinished, (s.queues j).history⟩,
            consumers := upd s.consumers j
              ⟨.performing p, (s.consumers j).log ++ [(j, p)]⟩ } := by
        simp [consume_step, hj, hpc, hp]
      rw [he]
      exact inv_dequeue s j p rest ⟨h1, h2⟩ hj hlast hp (by rw [hpc]; rfl)
  · have he : consume_step s j b =
        { s with consumers := upd s.consumers j ⟨.inFinally b, (s.consumers j).log⟩ } := by
      simp [consume_step, hj, hpc]
    rw [he]
    exact inv_set_pc s j (.inFinally b) ⟨h1, h2⟩ hj hlast
      (Or.inr (Or.inr (Or.inr (Or.inl ⟨b, rfl⟩)))) (by rw [hpc]; rfl)
  · have hu : (s.queues j).unfinished ≠ 0 := by
      rw [hunf, hpc]
      simp [pcCost]
    have he : consume_step s j b =
        { s with
          queues := upd s.queues j
            ⟨(s.queues j).pending, (s.queues j).unfinished - 1, (s.queues j).history⟩,
          consumers := upd s.consumers j
            ⟨if b0 then .dead else .loopTop, (s.consumers j).log⟩ } := by
      simp [consume_step, hj, hpc, htqj, hu]
    rw [he]
    exact inv_taskdone s j b0 ⟨h1, h2⟩ hj hlast hpc
  · have he : consume_step s j b = s := by simp [consume_step, hj, hpc]
    rw [he]; exact ⟨h1, h2⟩

/-- `QInv` is preserved by every step of a well-used trace. -/
theorem inv_step (s : Sys) (a : Act) (h : QInv s) (hq : a = .prep → quiescentB s = true) :
    QInv (step s a) := by
  cases a with
  | prep => exact inv_prep s h (hq rfl)
  | put p => exact inv_put s p h
  | consumer j b => exact inv_consumer s j b h
  | phaseStart =>
    obtain ⟨f1, f2, f3, f4, _, _⟩ := wrap_task_event_enter_frame s
    exact inv_congr s _ f1 f2 f3 f4 h
  | phaseEnd =>
    obtain ⟨f1, f2, f3, f4, _, _, _⟩ := wrap_task_event_exit_frame s
    exact inv_congr s _ f1 f2 f3 f4 h
  | waitInvoke pl =>
    obtain ⟨fw, _, _, f4, f5, f6, _⟩ := queue_wait_invoke_frame s pl
    show QInv (queue_wait_invoke s pl)
    exact inv_congr s _ f4 f5 f6 (by rw [fw]) h
  | waitWake =>
    obtain ⟨fw, _, _, f4, f5, f6, _⟩ := queue_wait_wake_frame s
    show QInv (queue_wait_wake s)
    exact inv_congr s _ f4 f5 f6 (by rw [fw]) h
  | joinInvoke pl =>
    obtain ⟨fw, _, _, f4, f5, f6, _⟩ := queue_join_invoke_frame s pl
    show QInv (queue_join_invoke s pl)
    exact inv_congr s _ f4 f5 f6 (by rw [fw]) h
  | joinResume =>
    obtain ⟨fw, _, _, f4, f5, f6, _⟩ := queue_join_resume_frame s
    show QInv (queue_join_resume s)
    exact inv_congr s _ f4 f5 f6 (by rw [fw]) h

/-- `QInv` holds after every well-used trace. -/
theorem inv_run (acts : List Act) (s : Sys) (h : QInv s) (hok : okRunB s acts = true) :
    QInv (run s acts) := by
  induction acts generalizing s with
  | nil => exact h
  | cons a rest ih =>
    cases a with
    | prep =>
      have hok' : (quiescentB s && okRunB (step s .prep) rest) = true := hok
      rw [Bool.and_eq_true] at hok'
      exact ih (step s .prep) (inv_step s .prep h (fun _ => hok'.1)) hok'.2
    | put p => exact ih _ (inv_step s (.put p) h (by intro hc; cases hc)) hok
    | consumer j b => exact ih _ (inv_step s (.consumer j b) h (by intro hc; cases hc)) hok
    | phaseStart => exact ih _ (inv_step s .phaseStart h (by intro hc; cases hc)) hok
    | phaseEnd => exact ih _ (inv_step s .phaseEnd h (by intro hc; cases hc)) hok
    | waitInvoke pl => exact ih _ (inv_step s (.waitInvoke pl) h (by intro hc; cases hc)) hok
    | waitWake => exact ih _ (inv_step s .waitWake h (by intro hc; cases hc)) hok
    | joinInvoke pl => exact ih _ (inv_step s (.joinInvoke pl) h (by intro hc; cases hc)) hok
    | joinResume => exact ih _ (inv_step s .joinResume h (by intro hc; cases hc)) hok

/-- C2 amended: along every trace in which `prep_task_queue` is invoked
only at quiescent points (every consumer parked in `get()` on its own
drained queue — the usage `prep_task_queue`'s docstring prescribes
between phases), every queue is drained by exactly one consumer task,
namely the one spawned with it: every dequeue logged by consumer `i` is
from queue `i`, and the sequence of payloads it has dequeued — the
sequence `perform_task` is invoked on, in order, a payload not marked
done before its call returns — followed by the still-pending payloads
is exactly the queue's arrival history, i.e. strict FIFO order.
Without the quiescence precondition the property fails (see the
counterexample): the source consumer re-reads `self._task_queue`, so a
replaced queue can acquire a second consumer. -/
theorem single_consumer_fifo_of_quiescent_prep (acts : List Act)
    (hok : okRunB initSys acts = true) :
    ∀ i, i < (run initSys acts).nq →
      (∀ e ∈ ((run initSys acts).consumers i).log, e.1 = i) ∧
      ((run initSys acts).consumers i).log.map Prod.snd ++
          ((run initSys acts).queues i).pending = ((run initSys acts).queues i).history := by
  intro i hi
  obtain ⟨_, h2⟩ := inv_run acts initSys inv_init hok
  obtain ⟨hl1, hl2, _⟩ := h2 i hi
  exact ⟨hl1, hl2⟩

/-- A well-used trace: two production phases, the queue of the first
fully drained and its consumer parked before the second `prep`. -/
def c2OkTrace : List Act :=
  [.prep, .put 5, .put 6,
   .consumer 0 false, .consumer 0 false, .consumer 0 false,
   .consumer 0 false, .consumer 0 false, .consumer 0 false, .consumer 0 false,
   .prep, .put 9, .consumer 1 false]

/-- Witness for the C2 amended theorem on `c2OkTrace`. -/
theorem single_consumer_fifo_of_quiescent_prep_witness :
    okRunB initSys c2OkTrace = true ∧
    ((∀ e ∈ ((run initSys c2OkTrace).consumers 1).log, e.1 = 1) ∧
     ((run initSys c2OkTrace).consumers 1).log.map Prod.snd ++
         ((run initSys c2OkTrace).queues 1).pending =
       ((run initSys c2OkTrace).queues 1).history) :=
  ⟨by decide, single_consumer_fifo_of_quiescent_prep c2OkTrace (by decide) 1 (by decide)⟩

/-- The scheduling trace of the C2 counterexample: `prep_task_queue`
is invoked again while consumer 0 is still inside `perform_task`. -/
def c2BadTrace : List Act :=
  [.prep, .put 10, .consumer 0 false,
   .prep, .put 20,
   .consumer 0 false, .consumer 0 false, .consumer 0 false,
   .put 30, .consumer 1 false]

/-- C2 counterexample: after `prep_task_queue` replaces the queue while
the previous consumer is mid-`perform_task`, TWO consumer tasks drain
the current TaskQueue (queue 1).  Consumer 0, spawned for queue 0,
finishes payload `10`, runs `task_done` against the *new* queue (the
source re-reads `self._task_queue` in the `finally`), loops, and
dequeues payload `20` from queue 1, while consumer 1 — the consumer
spawned for queue 1 — dequeues payload `30` from the same queue: both
logs contain queue-1 entries and both greenlets are inside
`perform_task` on queue-1 payloads at once.  Queue 1's `unfinished`
counter is also corrupted (1, though two of its payloads are
in flight).  This refutes the claim that at every point in a run
exactly one consumer task drains the current TaskQueue, in particular
after `prep_task_queue` is invoked again. -/
theorem two_consumers_drain_current_queue :
    (run initSys c2BadTrace).w.task_queue = some 1 ∧
    (1, 20) ∈ ((run initSys c2BadTrace).consumers 0).log ∧
    (1, 30) ∈ ((run initSys c2BadTrace).consumers 1).log ∧
    ((run initSys c2BadTrace).consumers 0).pc = .performing 20 ∧
    ((run initSys c2BadTrace).consumers 1).pc = .performing 30 ∧
    ((run initSys c2BadTrace).queues 1).unfinished = 1 := by
  decide

/-- One REST request/response exchange the coordinator performs with a
shard. -/
structure ReqEvent where
  shard_id : String
  shard_uri : String
  path : String
  ack : String
deriving Repr, DecidableEq

/-- Modelled from the spec: `post_distrib_rest` lives in `util.py`,
which is not under `src/`.  Per §4.5 (`broadcast`/`unicast`: send a
request, return the collected response) it synchronously POSTs the
message — augmented with the credential derived from `pfx` and
`shard_id` — to `http://<shard_uri>/<path>` and returns the response
lines.  `net` abstracts the network: the response line a shard at a
given uri returns for a given path and message.  The returned
`ReqEvent` records the issued request together with the shard's
acknowledgement, which is collected before `post_distrib_rest`
returns. -/
def post_distrib_rest (net : String → String → String → String)
    (pfx shard_id shard_uri path msg : String) : ReqEvent :=
  { shard_id := shard_id, shard_uri := shard_uri, path := path,
    ack := net shard_uri path msg }

/-- `Framework.send_ring_rest` (src/service.py:384-392): iterate the
shard registry in order, `post_distrib_rest` to each shard and append
`lines[0]` of each response to `json_str` before moving on to the next
shard (the transport is synchronous).  The first component is the
event trace of the exchanges, the second the collected `json_str`. -/
def send_ring_rest (net : String → String → String → String) (pfx : String)
    (shard_assoc : List (String × String)) (path msg : String) :
    List ReqEvent × List String :=
  (shard_assoc.map fun sa => post_distrib_rest net pfx sa.1 sa.2 path msg,
   shard_assoc.map fun sa => (post_distrib_rest net pfx sa.1 sa.2 path msg).ack)

/-- `Framework.phase_barrier` (src/service.py:395-402): broadcast
`queue/wait` to every shard, then broadcast `queue/join`.  The
concatenated trace records the request order: because every exchange
is synchronous, each acknowledgement is collected before the next
request in the trace is issued. -/
def phase_barrier (net : String → String → String → String) (pfx : String)
    (shard_assoc : List (String × String)) :
    List ReqEvent × (List String × List String) :=
  ((send_ring_rest net pfx shard_assoc "queue/wait" "\x7b\x7d").1 ++
     (send_ring_rest net pfx shard_assoc "queue/join" "\x7b\x7d").1,
   ((send_ring_rest net pfx shard_assoc "queue/wait" "\x7b\x7d").2,
    (send_ring_rest net pfx shard_assoc "queue/join" "\x7b\x7d").2))

/-- Position `k` of the `phase_barrier` trace is a `queue/wait`
request exactly when `k` falls in the first broadcast. -/
theorem phase_barrier_get_path (net : String → String → String → String)
    (pfx : String) (assoc : List (String × String)) (k : Nat)
    (hk : k < (phase_barrier net pfx assoc).1.length) :
    ((phase_barrier net pfx assoc).1.get ⟨k, hk⟩).path =
      (if k < assoc.length then "queue/wait" else "queue/join") := by
  have hk' : k < assoc.length + assoc.length := by
    simpa [phase_barrier, send_ring_rest] using hk
  rw [List.get_eq_getElem]
  by_cases hkn : k < assoc.length
  · rw [if_pos hkn]
    show ((send_ring_rest net pfx assoc "queue/wait" "\x7b\x7d").1 ++
      (send_ring_rest net pfx assoc "queue/join" "\x7b\x7d").1)[k].path = "queue/wait"
    rw [List.getElem_append_left (by simpa [send_ring_rest] using hkn)]
    simp [send_ring_rest, post_distrib_rest]
  · rw [if_neg hkn]
    show ((send_ring_rest net pfx assoc "queue/wait" "\x7b\x7d").1 ++
      (send_ring_rest net pfx assoc "queue/join" "\x7b\x7d").1)[k].path = "queue/join"
    rw [List.getElem_append_right (by simpa [send_ring_rest] using hkn)]
    simp [send_ring_rest, post_distrib_rest]

/-- C8: `phase_barrier` issues one `queue/wait` request to every shard
of the registry, in registry order, and — the transport being
synchronous — has collected every shard's wait acknowledgement before
the first `queue/join` request appears in the trace: the trace is the
wait broadcast followed by the join broadcast, every wait event carries
the acknowledgement the shard returned, and every wait exchange
strictly precedes every join exchange. -/
theorem phase_barrier_waits_before_joins (net : String → String → String → String)
    (pfx : String) (assoc : List (String × String)) :
    ((phase_barrier net pfx assoc).1.map fun e => (e.path, e.shard_id)) =
      ((assoc.map fun sa => ("queue/wait", sa.1)) ++
        (assoc.map fun sa => ("queue/join", sa.1))) ∧
    (∀ e ∈ (phase_barrier net pfx assoc).1, e.ack = net e.shard_uri e.path "\x7b\x7d") ∧
    (∀ i j, ∀ hi : i < (phase_barrier net pfx assoc).1.length,
      ∀ hj : j < (phase_barrier net pfx assoc).1.length,
      ((phase_barrier net pfx assoc).1.get ⟨i, hi⟩).path = "queue/wait" →
      ((phase_barrier net pfx assoc).1.get ⟨j, hj⟩).path = "queue/join" → i < j) := by
  refine ⟨?_, ?_, ?_⟩
  · simp [phase_barrier, send_ring_rest, post_distrib_rest, Function.comp_def]
  · intro e he
    simp only [phase_barrier, send_ring_rest, List.mem_append, List.mem_map] at he
    rcases he with ⟨sa, _, rfl⟩ | ⟨sa, _, rfl⟩ <;> rfl
  · intro i j hi hj hwi hwj
    rw [phase_barrier_get_path net pfx assoc i hi] at hwi
    rw [phase_barrier_get_path net pfx assoc j hj] at hwj
    by_cases hin : i < assoc.length
    · by_cases hjn : j < assoc.length
      · rw [if_pos hjn] at hwj
        simp at hwj
      · omega
    · rw [if_neg hin] at hwi
      simp at hwi

/-- A two-shard registry and a network stub for the C8 witness. -/
def assocC8 : List (String × String) := [("shard/0", "h0:9311"), ("shard/1", "h1:9311")]

/-- Network stub: every shard acknowledges with its path. -/
def netC8 : String → String → String → String := fun _ p _ => p ++ ":ok"

/-- Witness for C8 at a concrete registry: the trace shape holds and
the wait at position 0 precedes the join at position 2. -/
theorem phase_barrier_waits_before_joins_witness :
    (((phase_barrier netC8 "/tmp/exelixi/run0" assocC8).1.map fun e => (e.path, e.shard_id)) =
      ((assocC8.map fun sa => ("queue/wait", sa.1)) ++
        (assocC8.map fun sa => ("queue/join", sa.1)))) ∧
    (0 : Nat) < 2 :=
  ⟨(phase_barrier_waits_before_joins netC8 "/tmp/exelixi/run0" assocC8).1,
   (phase_barrier_waits_before_joins netC8 "/tmp/exelixi/run0" assocC8).2.2 0 2
     (by decide) (by decide) (by decide) (by decide)⟩

/-- The decimal digit character of `d` (ASCII 48 + d). -/
def digitChar10 (d : Nat) : Char := Char.ofNat (48 + d)

/-- Fuel-driven decimal rendering, the embedding of Python `str(i)`:
emit the last digit and recurse on `n / 10`; `n + 1` fuel always
suffices. -/
def decDigitsCore : Nat → Nat → List Char → List Char
  | 0, _, acc => acc
  | fuel + 1, n, acc =>
    if n < 10 then digitChar10 n :: acc
    else decDigitsCore fuel (n / 10) (digitChar10 (n % 10) :: acc)

/-- `str(n)` of the source: the decimal string of a natural number. -/
def decStr (n : Nat) : String := ⟨decDigitsCore (n + 1) n []⟩

/-- `Framework._gen_shard_id` (src/service.py:346-350):
`"shard/" + z + s` with `s = str(i)` and `z` a run of `'0'` of length
`len(str(n)) - len(str(i))` (`xrange` of a negative count is empty, as
is `Nat` subtraction). -/
def _gen_shard_id (i n : Nat) : String :=
  "shard/" ++ String.mk (List.replicate ((decStr n).length - (decStr i).length) '0') ++
    decStr i

/-- `Framework.set_worker_list` (src/service.py:353-365): generate one
shard identity per worker address by zero-padded index and pair it with
the address and the optional executor descriptor, in input order
(`self._shard_assoc` as an insertion-ordered association list). -/
def set_worker_list (worker_list : List String) (exe_info : Option (List String)) :
    List (String × String × Option String) :=
  (List.range worker_list.length).map fun i =>
    (_gen_shard_id i worker_list.length, worker_list.getD i "",
     match exe_info with
     | none => none
     | some l => some (l.getD i ""))

/-- Decimal value of a digit string, most significant digit first. -/
def parseDec (l : List Char) : Nat := l.foldl (fun a c => 10 * a + (c.toNat - 48)) 0

/-- `digitChar10` inverts back to the digit. -/
theorem digitChar10_toNat : ∀ d, d < 10 → (digitChar10 d).toNat - 48 = d := by decide

/-- `decDigitsCore` prepends the canonical digits of `n` to the
accumulator. -/
theorem decDigitsCore_acc (n : Nat) : ∀ fuel acc, n < fuel →
    decDigitsCore fuel n acc = decDigitsCore (n + 1) n [] ++ acc := by
  induction n using Nat.strong_induction_on with
  | _ n ih =>
    intro fuel acc hf
    cases fuel with
    | zero => omega
    | succ f =>
      by_cases h10 : n < 10
      · simp [decDigitsCore, h10]
      · have hd : n / 10 < n := Nat.div_lt_self (by omega) (by omega)
        have e1 : decDigitsCore (f + 1) n acc =
            decDigitsCore f (n / 10) (digitChar10 (n % 10) :: acc) := by
          simp [decDigitsCore, h10]
        have e2 : decDigitsCore (n + 1) n [] =
            decDigitsCore n (n / 10) [digitChar10 (n % 10)] := by
          simp [decDigitsCore, h10]
        rw [e1, e2, ih (n / 10) hd f _ (by omega), ih (n / 10) hd n _ (by omega)]
        simp

/-- Peeling the last digit off the canonical rendering. -/
theorem decDigitsCore_step (n : Nat) (h10 : ¬ n < 10) :
    decDigitsCore (n + 1) n [] =
      decDigitsCore (n / 10 + 1) (n / 10) [] ++ [digitChar10 (n % 10)] := by
  have hd : n / 10 < n := Nat.div_lt_self (by omega) (by omega)
  have e2 : decDigitsCore (n + 1) n [] =
      decDigitsCore n (n / 10) [digitChar10 (n % 10)] := by
    simp [decDigitsCore, h10]
  rw [e2, decDigitsCore_acc (n / 10) n _ hd]

/-- Parsing the decimal rendering returns the number. -/
theorem parseDec_canonical (n : Nat) : parseDec (decDigitsCore (n + 1) n []) = n := by
  induction n using Nat.strong_induction_on with
  | _ n ih =>
    by_cases h10 : n < 10
    · have e : decDigitsCore (n + 1) n [] = [digitChar10 n] := by
        simp [decDigitsCore, h10]
      rw [e]
      show 10 * 0 + ((digitChar10 n).toNat - 48) = n
      rw [digitChar10_toNat n h10]
      omega
    · have hd : n / 10 < n := Nat.div_lt_self (by omega) (by omega)
      rw [decDigitsCore_step n h10]
      unfold parseDec
      rw [List.foldl_append]
      simp only [List.foldl_cons, List.foldl_nil]
      have hmod : n % 10 < 10 := Nat.mod_lt _ (by omega)
      rw [digitChar10_toNat _ hmod]
      have hih := ih (n / 10) hd
      unfold parseDec at hih
      rw [hih]
      omega

/-- Leading zeros do not change the parsed value. -/
theorem parseDec_replicate_zero (k : Nat) (l : List Char) :
    parseDec (List.replicate k '0' ++ l) = parseDec l := by
  induction k with
  | zero => simp
  | succ m ih =>
    rw [List.replicate_succ, List.cons_append]
    unfold parseDec at ih ⊢
    rw [List.foldl_cons]
    have h0 : 10 * 0 + (('0' : Char).toNat - 48) = 0 := by decide
    rw [h0]
    exact ih

/-- Parsing `str(n)` returns `n`. -/
theorem parseDec_decStr (n : Nat) : parseDec (decStr n).data = n := parseDec_canonical n

/-- The character data of a generated shard identity. -/
theorem gen_shard_id_data (i n : Nat) :
    (_gen_shard_id i n).data =
      "shard/".data ++ (List.replicate ((decStr n).length - (decStr i).length) '0' ++
        (decStr i).data) := by
  unfold _gen_shard_id
  rw [String.data_append, String.data_append, List.append_assoc]

/-- Distinct indices give distinct shard identities (for a fixed
count): the numeric part parses back to the index, zero padding
notwithstanding. -/
theorem gen_shard_id_inj (n i j : Nat) (h : _gen_shard_id i n = _gen_shard_id j n) :
    i = j := by
  have hd := congrArg String.data h
  rw [gen_shard_id_data, gen_shard_id_data] at hd
  have hsuffix := List.append_cancel_left hd
  have hp := congrArg parseDec hsuffix
  rwa [parseDec_replicate_zero, parseDec_replicate_zero, parseDec_decStr,
    parseDec_decStr] at hp

/-- `str` of a one-digit number has length 1. -/
theorem decStr_length_small (n : Nat) (h : n < 10) : (decStr n).length = 1 := by
  show (decDigitsCore (n + 1) n []).length = 1
  simp [decDigitsCore, h]

/-- `str` of a multi-digit number is one longer than `str` of its
quotient by ten. -/
theorem decStr_length_big (n : Nat) (h : ¬ n < 10) :
    (decStr n).length = (decStr (n / 10)).length + 1 := by
  show (decDigitsCore (n + 1) n []).length = (decDigitsCore (n / 10 + 1) (n / 10) []).length + 1
  rw [decDigitsCore_step n h]
  simp

/-- Decimal length is monotone. -/
theorem decStr_length_mono (c : Nat) : ∀ a, a ≤ c → (decStr a).length ≤ (decStr c).length := by
  induction c using Nat.strong_induction_on with
  | _ c ih =>
    intro a hac
    by_cases hc10 : c < 10
    · have ha10 : a < 10 := by omega
      rw [decStr_length_small a ha10, decStr_length_small c hc10]
    · by_cases ha10 : a < 10
      · rw [decStr_length_small a ha10, decStr_length_big c hc10]
        omega
      · rw [decStr_length_big a ha10, decStr_length_big c hc10]
        have hdc : c / 10 < c := Nat.div_lt_self (by omega) (by omega)
        have hdiv : a / 10 ≤ c / 10 := Nat.div_le_div_right hac
        have := ih (c / 10) hdc (a / 10) hdiv
        omega

/-- A generated shard identity is `"shard/"` plus the index zero-padded
to the decimal width of the shard count. -/
theorem gen_shard_id_length (i n : Nat) (h : i < n) :
    (_gen_shard_id i n).length = 6 + (decStr n).length := by
  have hle : (decStr i).length ≤ (decStr n).length := decStr_length_mono n i (by omega)
  show (_gen_shard_id i n).data.length = 6 + (decStr n).length
  rw [gen_shard_id_data]
  have h6 : ("shard/".data).length = 6 := by decide
  rw [List.length_append, List.length_append, h6, List.length_replicate]
  have : (decStr i).data.length = (decStr i).length := rfl
  omega

/-- The `i`-th registry entry built by `set_worker_list`. -/
theorem set_worker_list_get (wl : List String) (exe : Option (List String)) (i : Nat)
    (hi : i < wl.length) :
    (set_worker_list wl exe).getD i ("", "", none) =
      (_gen_shard_id i wl.length, wl.getD i "",
       match exe with | none => none | some l => some (l.getD i "")) := by
  unfold set_worker_list
  rw [List.getD_eq_getElem?_getD, List.getElem?_map, List.getElem?_range hi]
  simp

/-- C9: for an ordered list of `n` worker addresses, `set_worker_list`
assigns to the `i`-th address (`0 ≤ i < n`) the shard identity
`"shard/"` followed by `i` zero-padded to the decimal width of `n`
(the identity's length is `6 + len(str(n))`; concretely `n = 3` yields
`shard/0 .. shard/2` and `n = 10` yields `shard/00 .. shard/09`),
paired with its address and optional descriptor; the identities are
pairwise distinct, and the assignment is a pure function of the input
list, hence deterministic given the same input order. -/
theorem set_worker_list_shard_ids (wl : List String) (exe : Option (List String))
    (i : Nat) (hi : i < wl.length) :
    (set_worker_list wl exe).length = wl.length ∧
    (set_worker_list wl exe).getD i ("", "", none) =
      (_gen_shard_id i wl.length, wl.getD i "",
       match exe with | none => none | some l => some (l.getD i "")) ∧
    (_gen_shard_id i wl.length).length = 6 + (decStr wl.length).length ∧
    (∀ j, j < wl.length → j ≠ i → _gen_shard_id j wl.length ≠ _gen_shard_id i wl.length) ∧
    (List.range 3).map (fun k => _gen_shard_id k 3) = ["shard/0", "shard/1", "shard/2"] ∧
    (List.range 10).map (fun k => _gen_shard_id k 10) =
      ["shard/00", "shard/01", "shard/02", "shard/03", "shard/04",
       "shard/05", "shard/06", "shard/07", "shard/08", "shard/09"] := by
  refine ⟨by simp [set_worker_list], set_worker_list_get wl exe i hi,
    gen_shard_id_length i wl.length hi, ?_, by decide, by decide⟩
  intro j hj hne h
  exact hne (gen_shard_id_inj wl.length j i h)

/-- Witness for C9 at a concrete input: three addresses, second entry. -/
theorem set_worker_list_shard_ids_witness :
    (1 : Nat) < 3 ∧
    (set_worker_list ["h0:9311", "h1:9311", "h2:9311"] none).getD 1 ("", "", none) =
      ("shard/1", "h1:9311", none) := by
  refine ⟨by decide, ?_⟩
  have h := (set_worker_list_shard_ids ["h0:9311", "h1:9311", "h2:9311"] none 1
    (by decide)).2.1
  rw [h]
  decide
